import Mathlib

/-!
Shallow embedding of the TSP metaheuristics repository (src/utils.py,
src/solver.py, src/genetico.py, src/memetico.py).

Conventions of the embedding:
* Python floats are modelled as rationals; the value `float('inf')` used as
  an infinite sentinel is modelled as `⊤` in `WithTop ℚ`.
* City indices are natural numbers (the code only ever builds routes out of
  `range(num_cidades)`); where a claim is about Python's raising behaviour
  on arbitrary indices, a bounds-checked `Except`-valued variant mirrors the
  lookup `matriz[u][v]`.
* The pseudo-random generator is externalised: a `Rng` carries one stream of
  rationals for `random.random()` (values are normalised into `[0,1)`, the
  codomain of the Python primitive) and one stream of naturals for the
  integer draws (`randint`, `randrange`, sampling, shuffling), which are
  reduced modulo the size of the requested range.  Every random choice the
  code can make corresponds to some pair of streams.
-/

/-- Costs: non-negative rationals or the infinite sentinel `float('inf')`. -/
abbrev QInf := WithTop ℚ

/-- A distance matrix as loaded by `ler_matriz_csv`: rows of costs, possibly
containing the infinite sentinel. -/
abbrev Matriz := List (List QInf)

/-- Externalised source of randomness: stream of `random.random()` values and
stream of integer draws, with the next unread index of each. -/
structure Rng where
  floats : Nat → ℚ
  nats : Nat → Nat
  fi : Nat
  ni : Nat

/-- `random.random()`: next float draw, normalised into `[0, 1)`. -/
def Rng.nextFloat (g : Rng) : ℚ × Rng :=
  let q := g.floats g.fi
  (if 0 ≤ q ∧ q < 1 then q else 0, { g with fi := g.fi + 1 })

/-- Next integer draw, uniform over `[0, b-1]` (for `b = 0` the draw is
returned unreduced; all call sites pass `b ≥ 1` on the inputs the theorems
quantify over). -/
def Rng.nextNat (g : Rng) (b : Nat) : ℕ × Rng :=
  (g.nats g.ni % b, { g with ni := g.ni + 1 })

/-- `random.randint(a, b)`: uniform over `[a, b]` (call sites have `a ≤ b`). -/
def pyRandint (g : Rng) (a b : Nat) : ℕ × Rng :=
  let (x, g1) := g.nextNat (b + 1 - a)
  (a + x, g1)

/-- `matriz_distancias[u][v]` for in-range indices; out-of-range lookups give
the infinite sentinel (inside the drivers every route is a permutation of
`range(num_cidades)`, so the default is never consulted there; the
bounds-checked variant below mirrors Python's raising behaviour). -/
def pegar (M : Matriz) (u v : Nat) : QInf :=
  (M.getD u []).getD v ⊤

/-- Python's `<` on two costs (finite float or the infinite sentinel),
written as an executable Boolean so that concrete runs evaluate inside the
kernel.  `qinfMenor_iff_lt` identifies it with the order of `WithTop ℚ`. -/
def qinfMenor (a b : QInf) : Bool :=
  if b = ⊤ then decide (a ≠ ⊤)
  else if a = ⊤ then false
  else decide (a.untop' 0 < b.untop' 0)

theorem qinfMenor_iff_lt (a b : QInf) : qinfMenor a b = true ↔ a < b := by
  induction b using WithTop.recTopCoe with
  | top =>
    induction a using WithTop.recTopCoe with
    | top => simp [qinfMenor]
    | coe qa => simp [qinfMenor, WithTop.coe_lt_top]
  | coe qb =>
    induction a using WithTop.recTopCoe with
    | top => simp [qinfMenor, WithTop.not_top_lt]
    | coe qa => simp [qinfMenor, WithTop.coe_lt_coe]

/-- `WithTop.untop'` applied to a numeral, stated so that `simp` matches the
numeral literal. -/
theorem untopD_ofNat (n : ℕ) [n.AtLeastTwo] :
    WithTop.untop' (0 : ℚ) (no_index (OfNat.ofNat n)) = OfNat.ofNat n := rfl

/-- `WithTop.untop'` applied to the literal 1. -/
theorem untopD_one : WithTop.untop' (0 : ℚ) (1 : QInf) = 1 := rfl

/-- `WithTop.untop'` applied to the literal 0. -/
theorem untopD_zero : WithTop.untop' (0 : ℚ) (0 : QInf) = 0 := rfl

/-- `Int.toNat` on a numeral, stated so that `simp` matches the literal. -/
theorem intToNat_ofNat (n : ℕ) : (no_index (OfNat.ofNat n) : ℤ).toNat = OfNat.ofNat n := rfl


/-- The summation loop of `calcular_custo_rota` (utils.py, lines 152-159):
walk consecutive pairs, short-circuit to the sentinel on a sentinel edge. -/
def somaCusto (M : Matriz) : List Nat → QInf
  | [] => 0
  | [_] => 0
  | u :: v :: resto =>
    let dist := pegar M u v
    if dist = ⊤ then ⊤ else dist + somaCusto M (v :: resto)

/-- `calcular_custo_rota(rota, matriz_distancias)` (utils.py, lines 144-159). -/
def calcular_custo_rota (rota : List Nat) (M : Matriz) : QInf :=
  if rota.length < M.length + 1 then ⊤ else somaCusto M rota

/-- Bounds-checked row lookup `matriz[u]`: `.error` is Python's `IndexError`.
(Indices are naturals; the program never builds negative city indices, so
Python's negative-index wrap-around does not arise.) -/
def pegarLinha (M : Matriz) (u : Nat) : Except Unit (List QInf) :=
  if u < M.length then .ok (M.getD u []) else .error ()

/-- Bounds-checked `linha[v]`. -/
def pegarCelula (linha : List QInf) (v : Nat) : Except Unit QInf :=
  if v < linha.length then .ok (linha.getD v ⊤) else .error ()

/-- The summation loop of `calcular_custo_rota` with Python's raising
behaviour for the lookups `matriz_distancias[u][v]`. -/
def somaCustoChecked (M : Matriz) : List Nat → Except Unit QInf
  | [] => .ok 0
  | [_] => .ok 0
  | u :: v :: resto => do
    let linha ← pegarLinha M u
    let dist ← pegarCelula linha v
    if dist = ⊤ then .ok ⊤
    else do
      let resto2 ← somaCustoChecked M (v :: resto)
      .ok (dist + resto2)

/-- `calcular_custo_rota` with Python's raising behaviour: `.error ()` means
the call raises `IndexError`. -/
def calcular_custo_rota_checked (rota : List Nat) (M : Matriz) : Except Unit QInf :=
  if rota.length < M.length + 1 then .ok ⊤ else somaCustoChecked M rota

/-- The specification's description of the cost: the sum, over all
consecutive pairs, of `matriz[route[i]][route[i+1]]` (in `WithTop ℚ` a
sentinel summand makes the whole sum the sentinel). -/
def somaArestasSpec (rota : List Nat) (M : Matriz) : QInf :=
  ((List.range (rota.length - 1)).map
    (fun i => pegar M (rota.getD i 0) (rota.getD (i + 1) 0))).sum

theorem somaCusto_cons_cons (M : Matriz) (u v : Nat) (resto : List Nat) :
    somaCusto M (u :: v :: resto) = pegar M u v + somaCusto M (v :: resto) := by
  by_cases h : pegar M u v = ⊤
  · simp [somaCusto, h]
  · simp [somaCusto, h]

theorem somaArestasSpec_cons_cons (M : Matriz) (u v : Nat) (resto : List Nat) :
    somaArestasSpec (u :: v :: resto) M = pegar M u v + somaArestasSpec (v :: resto) M := by
  unfold somaArestasSpec
  simp only [List.length_cons, Nat.add_sub_cancel, List.range_succ_eq_map,
    List.map_cons, List.map_map, List.sum_cons]
  rfl

theorem somaCusto_eq_spec (M : Matriz) (rota : List Nat) :
    somaCusto M rota = somaArestasSpec rota M := by
  induction rota with
  | nil => simp [somaCusto, somaArestasSpec]
  | cons u resto ih =>
    cases resto with
    | nil => simp [somaCusto, somaArestasSpec]
    | cons v resto2 =>
      rw [somaCusto_cons_cons, somaArestasSpec_cons_cons, ih]

theorem somaCustoChecked_ok (M : Matriz) (hsq : ∀ l ∈ M, l.length = M.length) :
    ∀ rota : List Nat, (∀ c ∈ rota, c < M.length) →
    somaCustoChecked M rota = .ok (somaCusto M rota) := by
  intro rota
  induction rota with
  | nil => intro _; rfl
  | cons u resto ih =>
    intro hin
    cases resto with
    | nil => rfl
    | cons v resto2 =>
      have hu : u < M.length := hin u (by simp)
      have hv : v < M.length := hin v (by simp)
      have hrow : (M.getD u []).length = M.length := by
        apply hsq
        rw [List.getD_eq_getElem M [] hu]
        exact List.getElem_mem hu
      have hrec := ih (fun c hc => hin c (List.mem_cons_of_mem u hc))
      have hcell : pegarCelula (M.getD u []) v = .ok (pegar M u v) := by
        unfold pegarCelula pegar
        rw [hrow]
        simp [hv]
      simp only [somaCustoChecked, pegarLinha, hu, if_true, Bind.bind, Except.bind,
        hcell, somaCusto_cons_cons]
      by_cases htop : pegar M u v = ⊤
      · simp [htop]
      · simp only [htop, if_false, hrec, Except.bind, somaCusto_cons_cons]

theorem listSum_top_mem (l : List QInf) (h : ⊤ ∈ l) : l.sum = ⊤ := by
  induction l with
  | nil => cases h
  | cons a t ih =>
    rcases List.mem_cons.mp h with ha | ht
    · simp [← ha]
    · simp [ih ht]

/-- C3 (corrected/amended): for every square matrix and every route whose
entries are valid indices, `calcular_custo_rota` never raises: a route
shorter than `len(matrix) + 1` yields the infinite sentinel, a length-valid
route yields the sum of `matrix[route[i]][route[i+1]]` over all consecutive
pairs, and the result is the sentinel whenever some such edge is the
sentinel.  (The original claim's "never raises on length-valid routes" for
arbitrary routes is refuted by `c3_custo_rota_indice_fora_levanta`.) -/
theorem c3_calcular_custo_rota_semantica (rota : List Nat) (M : Matriz)
    (hsq : ∀ l ∈ M, l.length = M.length) (hin : ∀ c ∈ rota, c < M.length) :
    (rota.length < M.length + 1 → calcular_custo_rota_checked rota M = .ok ⊤) ∧
    (M.length + 1 ≤ rota.length →
      calcular_custo_rota_checked rota M = .ok (somaArestasSpec rota M) ∧
      (⊤ ∈ (List.range (rota.length - 1)).map
          (fun i => pegar M (rota.getD i 0) (rota.getD (i + 1) 0)) →
        calcular_custo_rota_checked rota M = .ok ⊤)) := by
  constructor
  · intro hshort
    simp [calcular_custo_rota_checked, hshort]
  · intro hlong
    have hnot : ¬ rota.length < M.length + 1 := by omega
    have hok : calcular_custo_rota_checked rota M = .ok (somaArestasSpec rota M) := by
      simp only [calcular_custo_rota_checked, hnot, if_false]
      rw [somaCustoChecked_ok M hsq rota hin, somaCusto_eq_spec]
    refine ⟨hok, fun htopmem => ?_⟩
    rw [hok]
    have : somaArestasSpec rota M = ⊤ := listSum_top_mem _ htopmem
    rw [this]

/-- C3 counterexample: the claim's "never raises on length-valid routes"
fails as stated: the length-valid route `[2, 2, 2]` on a 2×2 matrix makes
`calcular_custo_rota` evaluate `matriz_distancias[2]`, which raises
`IndexError` in Python (modelled as `.error ()`). -/
theorem c3_custo_rota_indice_fora_levanta :
    calcular_custo_rota_checked [2, 2, 2] [[0, 0], [0, 0]] = .error () := rfl

/-- Witness for C3: a concrete in-bounds route evaluated through the theorem. -/
theorem c3_witness :
    calcular_custo_rota_checked [0, 1, 0] [[0, 2], [3, 0]]
      = .ok (somaArestasSpec [0, 1, 0] [[0, 2], [3, 0]]) :=
  ((c3_calcular_custo_rota_semantica [0, 1, 0] [[0, 2], [3, 0]]
    (by decide) (by decide)).2 (by decide)).1

/-- The resampling loop `while a == b: b = random.randint(lo, hi)` of
`mutacao_swap` / `mutacao_shift`, bounded by fuel (Python loops until the
draws differ; every theorem below either never reaches this loop or feeds it
a stream whose first redraw already differs). -/
def redesenhaEnquantoIgual (alvo lo hi : Nat) : Nat → Nat → Rng → Nat × Rng
  | 0, atual, g => (atual, g)
  | fuel + 1, atual, g =>
    if alvo = atual then
      let (novo, g1) := pyRandint g lo hi
      redesenhaEnquantoIgual alvo lo hi fuel novo g1
    else (atual, g)

/-- The parallel assignment `l[a], l[b] = l[b], l[a]`. -/
def trocar (l : List Nat) (a b : Nat) : List Nat :=
  (l.set a (l.getD b 0)).set b (l.getD a 0)

/-- The slice assignment `l[a:b+1] = l[a:b+1][::-1]`. -/
def inverteSegmento (l : List Nat) (a b : Nat) : List Nat :=
  l.take a ++ ((l.drop a).take (b + 1 - a)).reverse ++ l.drop (b + 1)

/-- `mutacao_swap(rota, probabilidade_mutacao)` (genetico.py, lines 285-314). -/
def mutacao_swap (rota : List Nat) (p : ℚ) (g : Rng) : List Nat × Rng :=
  let (r, g1) := g.nextFloat
  if r > p then (rota, g1)
  else
    let n := rota.length
    let (pos1, g2) := pyRandint g1 0 (n - 1)
    let (pos2a, g3) := pyRandint g2 0 (n - 1)
    let (pos2, g4) := redesenhaEnquantoIgual pos1 0 (n - 1) n pos2a g3
    (trocar rota pos1 pos2, g4)

/-- `mutacao_inversao(rota, probabilidade_mutacao)` (genetico.py, lines 317-346). -/
def mutacao_inversao (rota : List Nat) (p : ℚ) (g : Rng) : List Nat × Rng :=
  let (r, g1) := g.nextFloat
  if r > p then (rota, g1)
  else
    let n := rota.length
    let (p1a, g2) := pyRandint g1 0 (n - 1)
    let (p2a, g3) := pyRandint g2 0 (n - 1)
    let p1 := if p1a > p2a then p2a else p1a
    let p2 := if p1a > p2a then p1a else p2a
    (inverteSegmento rota p1 p2, g3)

/-- `mutacao_shift(rota, probabilidade_mutacao, cidade_inicial_fixa)`
(memetico.py, lines 24-69). -/
def mutacao_shift (rota : List Nat) (p : ℚ) (cif : Nat) (g : Rng) : List Nat × Rng :=
  let (r, g1) := g.nextFloat
  if r > p then (rota, g1)
  else
    let n := rota.length
    if n < 3 then (rota, g1)
    else
      let (origem, g2) := pyRandint g1 1 (n - 1)
      let (destinoA, g3) := pyRandint g2 1 (n - 1)
      let (destino0, g4) := redesenhaEnquantoIgual origem 1 (n - 1) n destinoA g3
      let cidade := rota.getD origem 0
      let semCidade := rota.eraseIdx origem
      let destino1 := if destino0 > origem then destino0 - 1 else destino0
      let destino := if destino1 = 0 then 1 else destino1
      (semCidade.insertIdx destino cidade, g4)

/-- `mutacao_2_opt(rota, probabilidade_mutacao, cidade_inicial_fixa)`
(memetico.py, lines 71-95). -/
def mutacao_2_opt (rota : List Nat) (p : ℚ) (cif : Nat) (g : Rng) : List Nat × Rng :=
  let (r, g1) := g.nextFloat
  if r > p then (rota, g1)
  else
    let n := rota.length
    if n < 3 then (rota, g1)
    else
      let (i, g2) := pyRandint g1 1 (n - 2)
      let (j, g3) := pyRandint g2 (i + 1) (n - 1)
      (inverteSegmento rota i j, g3)

/-- C7 (corrected/amended): with mutation probability 0 every mutation
operator returns its input unchanged for every internal draw of
`random.random()` that is strictly positive; the draw 0 (a possible outcome
of `random.random()`) makes the flip `random.random() > 0` fail, and the
operator then mutates (see `c7_mutacao_prob_zero_sorteio_zero`). -/
theorem c7_mutacao_prob_zero_inalterada (rota : List Nat) (cif : Nat) (g : Rng)
    (h : 0 < (Rng.nextFloat g).1) :
    (mutacao_swap rota 0 g).1 = rota ∧ (mutacao_inversao rota 0 g).1 = rota ∧
      (mutacao_shift rota 0 cif g).1 = rota := by
  rcases h1 : g.nextFloat with ⟨r, g1⟩
  rw [h1] at h
  refine ⟨?_, ?_, ?_⟩
  · simp only [mutacao_swap, h1]
    rw [if_pos h]
  · simp only [mutacao_inversao, h1]
    rw [if_pos h]
  · simp only [mutacao_shift, h1]
    rw [if_pos h]

/-- Witness for C7 at a concrete route and stream. -/
theorem c7_witness :
    (mutacao_swap [0, 1, 2] 0 ⟨fun _ => 1/2, fun i => i, 0, 0⟩).1 = [0, 1, 2] ∧
      (mutacao_inversao [0, 1, 2] 0 ⟨fun _ => 1/2, fun i => i, 0, 0⟩).1 = [0, 1, 2] ∧
      (mutacao_shift [0, 1, 2] 0 0 ⟨fun _ => 1/2, fun i => i, 0, 0⟩).1 = [0, 1, 2] :=
  c7_mutacao_prob_zero_inalterada [0, 1, 2] 0 ⟨fun _ => 1/2, fun i => i, 0, 0⟩ (by norm_num [Rng.nextFloat])

/-- C7 counterexample: with probability 0 and internal draw exactly 0 the
flip succeeds and `mutacao_swap` swaps two cities: the claim "unchanged for
every outcome of the internal random draw" fails as stated. -/
theorem c7_mutacao_prob_zero_sorteio_zero :
    (mutacao_swap [0, 1, 2] 0 ⟨fun _ => 0, fun i => i, 0, 0⟩).1 = [1, 0, 2] ∧
      ([1, 0, 2] : List Nat) ≠ [0, 1, 2] := by
  constructor
  · rfl
  · decide

/-- C8 (corrected/amended): `mutacao_shift` and `mutacao_2_opt` detect a
route of length ≤ 2 (`n < 3`) and return the input unchanged for every draw;
`mutacao_swap` and `mutacao_inversao` perform no such check and can modify a
length-2 route (see `c8_mutacao_swap_n2_altera`). -/
theorem c8_shift_2opt_degenerado_inalterado (rota : List Nat) (p : ℚ) (cif : Nat)
    (g : Rng) (h : rota.length ≤ 2) :
    (mutacao_shift rota p cif g).1 = rota ∧ (mutacao_2_opt rota p cif g).1 = rota := by
  rcases h1 : g.nextFloat with ⟨r, g1⟩
  have hn : rota.length < 3 := by omega
  constructor
  · simp only [mutacao_shift, h1]
    by_cases hr : r > p
    · rw [if_pos hr]
    · rw [if_neg hr, if_pos hn]
  · simp only [mutacao_2_opt, h1]
    by_cases hr : r > p
    · rw [if_pos hr]
    · rw [if_neg hr, if_pos hn]

/-- Witness for C8 at a concrete degenerate route. -/
theorem c8_witness :
    (mutacao_shift [0, 1] 1 0 ⟨fun _ => 0, fun i => i, 0, 0⟩).1 = [0, 1] ∧
      (mutacao_2_opt [0, 1] 1 0 ⟨fun _ => 0, fun i => i, 0, 0⟩).1 = [0, 1] :=
  c8_shift_2opt_degenerado_inalterado [0, 1] 1 0 ⟨fun _ => 0, fun i => i, 0, 0⟩ (by decide)

/-- C8 counterexample: `mutacao_swap` on the length-2 route `[0, 1]` with the
flip succeeding swaps the two cities instead of returning the input
unchanged. -/
theorem c8_mutacao_swap_n2_altera :
    (mutacao_swap [0, 1] 1 ⟨fun _ => 0, fun i => i, 0, 0⟩).1 = [1, 0] ∧
      ([1, 0] : List Nat) ≠ [0, 1] := by
  constructor
  · rfl
  · decide

/-- `filho = [None] * n` followed by the slice assignment
`filho[ponto1:ponto2+1] = pai[ponto1:ponto2+1]`. -/
def segmentoCopiado (pai : List Nat) (p1 p2 : Nat) : List (Option Nat) :=
  (List.range pai.length).map
    (fun i => if p1 ≤ i ∧ i ≤ p2 then some (pai.getD i 0) else none)

/-- `preencher_restante` of `cruzamento_ox` (genetico.py, lines 212-225):
walk the other parent circularly from `ponto2 + 1`, writing each city missing
from the copied segment at the next circular position.  The counter runs the
loop exactly `n` times, as in the code. -/
def preencherRestante (paiOrigem conjunto : List Nat) (n : Nat) :
    Nat → Nat → Nat → List (Option Nat) → List (Option Nat)
  | 0, _, _, filho => filho
  | count + 1, posAtual, idxPai, filho =>
    let cidade := paiOrigem.getD idxPai 0
    if cidade ∈ conjunto then
      preencherRestante paiOrigem conjunto n count posAtual ((idxPai + 1) % n) filho
    else
      preencherRestante paiOrigem conjunto n count ((posAtual + 1) % n) ((idxPai + 1) % n)
        (filho.set posAtual (some cidade))

/-- `cruzamento_ox(pai1, pai2)` (genetico.py, lines 183-230).
`sorted(random.sample(range(n), 2))` is modelled by two draws giving a pair
of distinct indices, then ordered. -/
def cruzamento_ox (pai1 pai2 : List Nat) (g : Rng) : (List Nat × List Nat) × Rng :=
  let n := pai1.length
  let (a, g1) := g.nextNat n
  let (b0, g2) := g1.nextNat (n - 1)
  let b := if b0 ≥ a then b0 + 1 else b0
  let ponto1 := min a b
  let ponto2 := max a b
  let seg1 := (pai1.drop ponto1).take (ponto2 + 1 - ponto1)
  let seg2 := (pai2.drop ponto1).take (ponto2 + 1 - ponto1)
  let filho1 := preencherRestante pai2 seg1 n n ((ponto2 + 1) % n) ((ponto2 + 1) % n)
    (segmentoCopiado pai1 ponto1 ponto2)
  let filho2 := preencherRestante pai1 seg2 n n ((ponto2 + 1) % n) ((ponto2 + 1) % n)
    (segmentoCopiado pai2 ponto1 ponto2)
  ((filho1.map (fun c => c.getD 0), filho2.map (fun c => c.getD 0)), g2)

/-- Python dict insertion `d[k] = v` on an association list. -/
def dictAtualiza (d : List (Nat × Nat)) (k v : Nat) : List (Nat × Nat) :=
  if (d.lookup k).isSome then d.map (fun kv => if kv.1 = k then (k, v) else kv)
  else d ++ [(k, v)]

/-- The mapping construction of `criar_filho_pmx` (genetico.py, lines
262-266): `mapeamento[pai_origem[i]] = pai_mapeamento[i]` only when
`pai_mapeamento[i] not in filho`. -/
def constroiMapeamento (paiOrigem paiMape : List Nat) (filho : List (Option Nat)) :
    List Nat → List (Nat × Nat) → List (Nat × Nat)
  | [], d => d
  | i :: rest, d =>
    let d2 :=
      if (some (paiMape.getD i 0)) ∈ filho then d
      else dictAtualiza d (paiOrigem.getD i 0) (paiMape.getD i 0)
    constroiMapeamento paiOrigem paiMape filho rest d2

/-- The conflict loop `while cidade in filho and cidade in mapeamento:
cidade = mapeamento[cidade]` (genetico.py, line 273).  A mapping value is
never a mapping key, so the loop takes at most one step; the fuel
`d.length + 1` always suffices. -/
def resolveConflito (filho : List (Option Nat)) (d : List (Nat × Nat)) :
    Nat → Nat → Nat
  | 0, cidade => cidade
  | fuel + 1, cidade =>
    if (some cidade) ∈ filho then
      match d.lookup cidade with
      | some prox => resolveConflito filho d fuel prox
      | none => cidade
    else cidade

/-- The fill loop of `criar_filho_pmx` (genetico.py, lines 268-275): for each
position still `None`, resolve `pai_mapeamento[i]` through the mapping
against the current partially filled child. -/
def preencheComMapeamento (paiMape : List Nat) (d : List (Nat × Nat)) :
    List Nat → List (Option Nat) → List (Option Nat)
  | [], filho => filho
  | i :: rest, filho =>
    match filho.getD i none with
    | some _ => preencheComMapeamento paiMape d rest filho
    | none =>
      let cidade := resolveConflito filho d (d.length + 1) (paiMape.getD i 0)
      preencheComMapeamento paiMape d rest (filho.set i (some cidade))

/-- `criar_filho_pmx(pai_origem, pai_mapeamento)` for fixed cut points
(genetico.py, lines 254-277). -/
def criar_filho_pmx (paiOrigem paiMape : List Nat) (p1 p2 : Nat) : List Nat :=
  let n := paiOrigem.length
  let filho0 := segmentoCopiado paiOrigem p1 p2
  let d := constroiMapeamento paiOrigem paiMape filho0 (List.range' p1 (p2 + 1 - p1)) []
  (preencheComMapeamento paiMape d (List.range n) filho0).map (fun c => c.getD 0)

/-- `cruzamento_pmx(pai1, pai2)` (genetico.py, lines 232-282). -/
def cruzamento_pmx (pai1 pai2 : List Nat) (g : Rng) : (List Nat × List Nat) × Rng :=
  let n := pai1.length
  let (p1a, g1) := pyRandint g 0 (n - 1)
  let (p2a, g2) := pyRandint g1 0 (n - 1)
  let p1 := if p1a > p2a then p2a else p1a
  let p2 := if p1a > p2a then p1a else p2a
  ((criar_filho_pmx pai1 pai2 p1 p2, criar_filho_pmx pai2 pai1 p1 p2), g2)

/-- C2: on the permutation parents `[0,1,2,3]` and `[1,2,0,3]` with cut
points `ponto1 = 1`, `ponto2 = 2`, `cruzamento_pmx` returns the first child
`[1,1,2,3]`, which duplicates city 1 and omits city 0: PMX does not always
produce a valid permutation (the guard `pai_mapeamento[i] not in filho`
drops the mapping entry needed to resolve the conflict at position 0). -/
theorem c2_cruzamento_pmx_filho_invalido :
    ((cruzamento_pmx [0, 1, 2, 3] [1, 2, 0, 3] ⟨fun _ => 0, fun i => i + 1, 0, 0⟩).1).1
        = [1, 1, 2, 3] ∧
      ¬ ([1, 1, 2, 3] : List Nat).Perm [0, 1, 2, 3] := by
  constructor
  · rfl
  · decide

/-- `calcular_fitness(rota, matriz_distancias)` (genetico.py, lines 64-89):
append the return to the start, take the inverse cost (0 for the sentinel). -/
def calcular_fitness (rota : List Nat) (M : Matriz) : ℚ :=
  let rotaCompleta := rota ++ [rota.headD 0]
  let custo := calcular_custo_rota rotaCompleta M
  if custo = ⊤ then 0 else 1 / (custo.untop' 0 + 1)

/-- Stable insertion into a list sorted by non-increasing fitness: an element
is placed before the first entry whose key is not larger, so entries with
equal keys keep their original relative order, as Python's stable
`sort(reverse=True, key=...)` does. -/
def insereDesc (x : ℚ × List Nat) : List (ℚ × List Nat) → List (ℚ × List Nat)
  | [] => [x]
  | y :: ys => if x.1 ≥ y.1 then x :: y :: ys else y :: insereDesc x ys

/-- Stable sort by fitness, best first. -/
def ordenaDesc : List (ℚ × List Nat) → List (ℚ × List Nat)
  | [] => []
  | x :: xs => insereDesc x (ordenaDesc xs)

/-- `avaliar_populacao(populacao, matriz_distancias)` (genetico.py, lines
92-110). -/
def avaliar_populacao (populacao : List (List Nat)) (M : Matriz) : List (ℚ × List Nat) :=
  ordenaDesc (populacao.map (fun rota => (calcular_fitness rota M, rota)))

/-- The roulette scan (genetico.py, lines 146-151): first index whose
accumulated probability reaches the draw. -/
def roletaEscolhe (r : ℚ) : ℚ → List (ℚ × List Nat) → Option (List Nat)
  | _, [] => none
  | acum, (prob, rota) :: resto =>
    if r ≤ acum + prob then some rota else roletaEscolhe r (acum + prob) resto

/-- The selection loop of `selecao_roleta` (genetico.py, lines 140-151): one
float draw per requested parent; when the scan finds nobody nothing is
appended, exactly as the Python loop falls through without `break`. -/
def roletaLaco (pares : List (ℚ × List Nat)) : Nat → Rng → List (List Nat) → List (List Nat) × Rng
  | 0, g, acc => (acc, g)
  | k + 1, g, acc =>
    let (r, g1) := g.nextFloat
    let acc2 :=
      match roletaEscolhe r 0 pares with
      | some rota => acc ++ [rota]
      | none => acc
    roletaLaco pares k g1 acc2

/-- The zero-fitness fallback `[random.choice(populacao_avaliada)[1] for _ in
range(num_pais)]` (genetico.py, line 134). -/
def escolheAleatoria (pa : List (ℚ × List Nat)) : Nat → Rng → List (List Nat) × Rng
  | 0, g => ([], g)
  | k + 1, g =>
    let (i, g1) := g.nextNat pa.length
    let (resto, g2) := escolheAleatoria pa k g1
    ((pa.getD i (0, [])).2 :: resto, g2)

/-- `selecao_roleta(populacao_avaliada, num_pais)` (genetico.py, lines
113-153). -/
def selecao_roleta (pa : List (ℚ × List Nat)) (numPais : Nat) (g : Rng) :
    List (List Nat) × Rng :=
  let fitnessValues := pa.map (fun ind => ind.1)
  let soma := fitnessValues.sum
  if soma = 0 then escolheAleatoria pa numPais g
  else
    let probabilidades := fitnessValues.map (fun f => f / soma)
    roletaLaco (probabilidades.zip (pa.map (fun ind => ind.2))) numPais g []

/-- `random.sample(lst, k)`: k distinct positions, drawn one at a time. -/
def pySample (l : List (ℚ × List Nat)) : Nat → Rng → List (ℚ × List Nat) × Rng
  | 0, g => ([], g)
  | k + 1, g =>
    let (i, g1) := g.nextNat l.length
    let escolhido := l.getD i (0, [])
    let (resto, g2) := pySample (l.eraseIdx i) k g1
    (escolhido :: resto, g2)

/-- Python's `max(participantes, key=lambda x: x[0])`: keeps the first
maximum. -/
def maxPorFitness (l : List (ℚ × List Nat)) : ℚ × List Nat :=
  l.foldl (fun melhor x => if x.1 > melhor.1 then x else melhor) (l.headD (0, []))

/-- The selection loop of `selecao_torneio` (genetico.py, lines 171-180). -/
def torneioLaco (pa : List (ℚ × List Nat)) (tt : Nat) : Nat → Rng → List (List Nat) × Rng
  | 0, g => ([], g)
  | k + 1, g =>
    let (participantes, g1) := pySample pa (min tt pa.length) g
    let melhor := maxPorFitness participantes
    let (resto, g2) := torneioLaco pa tt k g1
    (melhor.2 :: resto, g2)

/-- `selecao_torneio(populacao_avaliada, num_pais, tamanho_torneio)`
(genetico.py, lines 156-181). -/
def selecao_torneio (pa : List (ℚ × List Nat)) (numPais tt : Nat) (g : Rng) :
    List (List Nat) × Rng :=
  torneioLaco pa tt numPais g

theorem nextFloat_lt_one (g : Rng) : (g.nextFloat).1 < 1 := by
  unfold Rng.nextFloat
  by_cases h : 0 ≤ g.floats g.fi ∧ g.floats g.fi < 1
  · simpa [h] using h.2
  · simp [h]

theorem escolheAleatoria_length (pa : List (ℚ × List Nat)) :
    ∀ (k : Nat) (g : Rng), ((escolheAleatoria pa k g).1).length = k := by
  intro k
  induction k with
  | zero => intro g; rfl
  | succ k ih =>
    intro g
    simp only [escolheAleatoria]
    rcases h1 : escolheAleatoria pa k ((g.nextNat pa.length).2) with ⟨resto, g2⟩
    have := ih ((g.nextNat pa.length).2)
    rw [h1] at this
    simp [h1, this]

theorem roletaEscolhe_isSome (r : ℚ) :
    ∀ (pares : List (ℚ × List Nat)) (acum : ℚ), pares ≠ [] →
    r ≤ acum + (pares.map (fun pr => pr.1)).sum → (roletaEscolhe r acum pares).isSome := by
  intro pares
  induction pares with
  | nil => intro acum h _; exact absurd rfl h
  | cons par resto ih =>
    intro acum _ hsum
    rcases par with ⟨prob, rota⟩
    by_cases hr : r ≤ acum + prob
    · simp [roletaEscolhe, hr]
    · have hresto : resto ≠ [] := by
        rintro rfl
        simp at hsum
        exact hr hsum
      have : r ≤ (acum + prob) + (resto.map (fun pr => pr.1)).sum := by
        simp only [List.map_cons, List.sum_cons] at hsum
        linarith
      simpa [roletaEscolhe, hr] using ih (acum + prob) hresto this

theorem roletaLaco_length (pares : List (ℚ × List Nat)) (hne : pares ≠ [])
    (hsum : (pares.map (fun pr => pr.1)).sum = 1) :
    ∀ (k : Nat) (g : Rng) (acc : List (List Nat)),
    ((roletaLaco pares k g acc).1).length = acc.length + k := by
  intro k
  induction k with
  | zero => intro g acc; rfl
  | succ k ih =>
    intro g acc
    rcases h1 : g.nextFloat with ⟨r, g1⟩
    have hr : r < 1 := by
      have := nextFloat_lt_one g
      rw [h1] at this
      exact this
    have hsome := roletaEscolhe_isSome r pares 0 hne (by rw [hsum]; linarith)
    rcases h2 : roletaEscolhe r 0 pares with _ | rota
    · rw [h2] at hsome; cases hsome
    · simp only [roletaLaco, h1, h2]
      rw [ih g1 (acc ++ [rota])]
      simp
      omega

theorem sum_map_div (l : List ℚ) (s : ℚ) :
    (l.map (fun f => f / s)).sum = l.sum / s := by
  induction l with
  | nil => simp
  | cons a t ih => simp [ih, add_div]

/-- C6 (confirmed): for every non-empty evaluated population and every
requested count, `selecao_roleta` returns exactly that many parents; in
particular when the total fitness is 0 the uniform fallback still returns
the requested number. -/
theorem c6_selecao_roleta_tamanho (pa : List (ℚ × List Nat)) (numPais : Nat)
    (g : Rng) (h : pa ≠ []) : ((selecao_roleta pa numPais g).1).length = numPais := by
  unfold selecao_roleta
  by_cases hz : (pa.map (fun ind => ind.1)).sum = 0
  · simpa [hz] using escolheAleatoria_length pa numPais g
  · simp only [hz, if_false]
    have hlen : (pa.map (fun ind => ind.1)).length ≤ (pa.map (fun ind => ind.2)).length := by
      simp
    have hfst :
        (((pa.map (fun ind => ind.1)).map
            (fun f => f / (pa.map (fun ind => ind.1)).sum)).zip
          (pa.map (fun ind => ind.2))).map (fun pr => pr.1)
          = (pa.map (fun ind => ind.1)).map (fun f => f / (pa.map (fun ind => ind.1)).sum) := by
      apply List.map_fst_zip
      simpa using hlen
    have hsum1 :
        ((((pa.map (fun ind => ind.1)).map
            (fun f => f / (pa.map (fun ind => ind.1)).sum)).zip
          (pa.map (fun ind => ind.2))).map (fun pr => pr.1)).sum = 1 := by
      rw [hfst, sum_map_div, div_self hz]
    have hne :
        (((pa.map (fun ind => ind.1)).map
            (fun f => f / (pa.map (fun ind => ind.1)).sum)).zip
          (pa.map (fun ind => ind.2))) ≠ [] := by
      rcases pa with _ | ⟨x, resto⟩
      · exact absurd rfl h
      · simp [List.zip]
    simpa using roletaLaco_length _ hne hsum1 numPais g []

/-- Witness for C6: a population whose only individual has fitness 0 (the
all-infeasible case) still yields the two requested parents. -/
theorem c6_witness :
    ((selecao_roleta [(0, [0])] 2 ⟨fun _ => 0, fun i => i, 0, 0⟩).1).length = 2 :=
  c6_selecao_roleta_tamanho [(0, [0])] 2 ⟨fun _ => 0, fun i => i, 0, 0⟩ (by decide)

/-- CPython's `random.shuffle` (Fisher-Yates): for `i` from `len-1` down to
1, swap position `i` with a drawn `j ≤ i`. -/
def embaralhaFY (l : List Nat) : Nat → Rng → List Nat × Rng
  | 0, g => (l, g)
  | i + 1, g =>
    let (j, g1) := g.nextNat (i + 2)
    embaralhaFY (trocar l (i + 1) j) i g1

/-- `random.shuffle(rota_aleatoria)`. -/
def pyShuffle (l : List Nat) (g : Rng) : List Nat × Rng :=
  embaralhaFY l (l.length - 1) g

/-- The candidate scan of `vizinho_mais_proximo` (solver.py, lines 37-42):
closest unvisited candidate, strict improvement, first found on ties. -/
def vmpArgmin (M : Matriz) (atual : Nat) (visitadas : List Nat) :
    List Nat → Option Nat → QInf → Option Nat
  | [], melhor, _ => melhor
  | cand :: resto, melhor, melhorDist =>
    if cand ∈ visitadas then vmpArgmin M atual visitadas resto melhor melhorDist
    else
      let dist := pegar M atual cand
      if qinfMenor dist melhorDist then vmpArgmin M atual visitadas resto (some cand) dist
      else vmpArgmin M atual visitadas resto melhor melhorDist

/-- The `while len(visitadas) < num_cidades` loop of `vizinho_mais_proximo`
(solver.py, lines 32-51); each pass visits one more city or `break`s, so the
fuel `n` covers every pass the Python loop makes. -/
def vmpLaco (M : Matriz) (n : Nat) : Nat → Nat → List Nat → List Nat → List Nat
  | 0, _, rota, _ => rota
  | fuel + 1, atual, rota, visitadas =>
    if visitadas.length < n then
      match vmpArgmin M atual visitadas (List.range n) none ⊤ with
      | some prox => vmpLaco M n fuel prox (rota ++ [prox]) (visitadas ++ [prox])
      | none => rota
    else rota

/-- `vizinho_mais_proximo(matriz_distancias, inicio_aleatorio, cidade_inicial)`
(solver.py, lines 5-56). -/
def vizinho_mais_proximo (M : Matriz) (inicioAleatorio : Bool) (cidadeInicial : Nat)
    (g : Rng) : List Nat × Rng :=
  let n := M.length
  let (atual, g1) := if inicioAleatorio then pyRandint g 0 (n - 1) else (cidadeInicial, g)
  let rota := vmpLaco M n n atual [atual] [atual]
  (rota ++ [rota.headD 0], g1)

/-- The heuristic part of `inicializar_populacao` (genetico.py, lines 46-52):
nearest-neighbour routes from random starts, each with the closing return
removed. -/
def heuristicaLaco (M : Matriz) : Nat → Rng → List (List Nat) × Rng
  | 0, g => ([], g)
  | k + 1, g =>
    let rh := vizinho_mais_proximo M true 0 g
    let resto := heuristicaLaco M k rh.2
    (rh.1.dropLast :: resto.1, resto.2)

/-- The random part of `inicializar_populacao` (genetico.py, lines 54-59):
shuffles of a fresh copy of `list(range(num_cidades))`. -/
def aleatoriaLaco (cidades : List Nat) : Nat → Rng → List (List Nat) × Rng
  | 0, g => ([], g)
  | k + 1, g =>
    let ra := pyShuffle cidades g
    let resto := aleatoriaLaco cidades k ra.2
    (ra.1 :: resto.1, resto.2)

/-- `inicializar_populacao(tamanho_populacao, num_cidades, usar_heuristica,
matriz_distancias)` (genetico.py, lines 21-61).  `matriz_distancias` is
`Option`al, and Python's truthiness test makes `None` and the empty matrix
disable the heuristic. -/
def inicializar_populacao (tamanho numCidades : Nat) (usarHeuristica : Bool)
    (M : Option Matriz) (g : Rng) : List (List Nat) × Rng :=
  let numHeuristica :=
    match M with
    | some m => if usarHeuristica ∧ m ≠ [] then tamanho / 4 else 0
    | none => 0
  let popH :=
    match M with
    | some m => if numHeuristica > 0 then heuristicaLaco m numHeuristica g else ([], g)
    | none => ([], g)
  let popA := aleatoriaLaco (List.range numCidades) (tamanho - popH.1.length) popH.2
  (popH.1 ++ popA.1, popA.2)

/-- Python's `int()` truncation toward zero on a rational. -/
def pyInt (q : ℚ) : ℤ :=
  if 0 ≤ q then ⌊q⌋ else -⌊-q⌋

/-- `num_elite = max(1, int(tamanho_populacao * taxa_elitismo))`
(genetico.py, line 402; memetico.py, line 238). -/
def numElite (tamanho : Nat) (taxa : ℚ) : Nat :=
  max 1 (pyInt ((tamanho : ℚ) * taxa)).toNat

/-- The append block repeated for each child (genetico.py, lines 457-468):
append the child, unless it equals a parent, in which case append a forced
inversion of it. -/
def anexaFilho (nova : List (List Nat)) (filho pai1 pai2 : List Nat) (g : Rng) :
    List (List Nat) × Rng :=
  if filho ≠ pai1 ∧ filho ≠ pai2 then (nova ++ [filho], g)
  else
    let fm := mutacao_inversao filho 1 g
    (nova ++ [fm.1], fm.2)

/-- One pass of the breeding loop of `algoritmo_genetico` (genetico.py,
lines 430-468): select two parents, maybe cross, mutate, then append the
children (a child equal to a parent is replaced by a forced inversion). -/
def passoNovaPopulacao (pa : List (ℚ × List Nat)) (tamanho : Nat) (pc pm : ℚ)
    (msel mcruz mmut : String) (tt : Nat) (nova : List (List Nat)) (g : Rng) :
    List (List Nat) × Rng :=
  let ps := if msel = "roleta" then selecao_roleta pa 2 g else selecao_torneio pa 2 tt g
  let pai1 := ps.1.getD 0 []
  let pai2 := ps.1.getD 1 []
  let rc := ps.2.nextFloat
  let filhos :=
    if rc.1 < pc then
      if mcruz = "ox" then cruzamento_ox pai1 pai2 rc.2 else cruzamento_pmx pai1 pai2 rc.2
    else ((pai1, pai2), rc.2)
  let f1 :=
    if mmut = "swap" then mutacao_swap filhos.1.1 pm filhos.2
    else mutacao_inversao filhos.1.1 pm filhos.2
  let f2 :=
    if mmut = "swap" then mutacao_swap filhos.1.2 pm f1.2
    else mutacao_inversao filhos.1.2 pm f1.2
  let n1 := anexaFilho nova f1.1 pai1 pai2 f2.2
  if n1.1.length < tamanho then anexaFilho n1.1 f2.1 pai1 pai2 n1.2
  else n1

/-- The `while len(nova_populacao) < tamanho_populacao` loop (genetico.py,
line 430).  Each pass appends at least one individual, so fuel
`tamanho_populacao` covers every pass the Python loop makes. -/
def lacoNovaPopulacao (pa : List (ℚ × List Nat)) (tamanho : Nat) (pc pm : ℚ)
    (msel mcruz mmut : String) (tt : Nat) : Nat → List (List Nat) → Rng →
    List (List Nat) × Rng
  | 0, nova, g => (nova, g)
  | fuel + 1, nova, g =>
    if nova.length < tamanho then
      let passo := passoNovaPopulacao pa tamanho pc pm msel mcruz mmut tt nova g
      lacoNovaPopulacao pa tamanho pc pm msel mcruz mmut tt fuel passo.1 passo.2
    else (nova, g)

/-- The new population of one generation (genetico.py, lines 426-468): the
elite prefix followed by bred individuals. -/
def novaPopulacao (pa : List (ℚ × List Nat)) (tamanho : Nat) (pc pm : ℚ)
    (msel mcruz mmut : String) (tt : Nat) (taxa : ℚ) (g : Rng) :
    List (List Nat) × Rng :=
  let nova0 := (pa.take (numElite tamanho taxa)).map (fun ind => ind.2)
  lacoNovaPopulacao pa tamanho pc pm msel mcruz mmut tt tamanho nova0 g

/-- The generation loop of `algoritmo_genetico` (genetico.py, lines 408-471),
carrying the tracking state (best route so far, its cost, fitness history).
With an empty population Python would raise at `populacao_avaliada[0]`; the
`headD` default is only consulted in that unreachable-for-positive-sizes
case. -/
def lacoGeracoes (M : Matriz) (tamanho : Nat) (pc pm : ℚ)
    (msel mcruz mmut : String) (tt : Nat) (taxa : ℚ) :
    Nat → List (List Nat) → Option (List Nat) → QInf → List ℚ → Rng →
    (Option (List Nat) × QInf × List ℚ) × Rng
  | 0, _, melhorRota, melhorCusto, hist, g => ((melhorRota, melhorCusto, hist), g)
  | gens + 1, populacao, melhorRota, melhorCusto, hist, g =>
    let pa := avaliar_populacao populacao M
    let melhorFitnessGer := (pa.headD (0, [])).1
    let melhorRotaGer := (pa.headD (0, [])).2
    let rotaCompleta := melhorRotaGer ++ [melhorRotaGer.headD 0]
    let custoGer := calcular_custo_rota rotaCompleta M
    let melhorRota2 := if qinfMenor custoGer melhorCusto then some rotaCompleta else melhorRota
    let melhorCusto2 := if qinfMenor custoGer melhorCusto then custoGer else melhorCusto
    let hist2 := hist ++ [melhorFitnessGer]
    let np := novaPopulacao pa tamanho pc pm msel mcruz mmut tt taxa g
    lacoGeracoes M tamanho pc pm msel mcruz mmut tt taxa gens np.1 melhorRota2
      melhorCusto2 hist2 np.2

/-- `algoritmo_genetico(matriz_distancias, tamanho_populacao, num_geracoes,
probabilidade_cruzamento, probabilidade_mutacao, metodo_selecao,
metodo_cruzamento, metodo_mutacao, tamanho_torneio, taxa_elitismo)`
(genetico.py, lines 349-473). -/
def algoritmo_genetico (M : Matriz) (tamanho numGeracoes : Nat) (pc pm : ℚ)
    (msel mcruz mmut : String) (tt : Nat) (taxa : ℚ) (g : Rng) :
    Option (List Nat) × QInf × List ℚ :=
  let numCidades := M.length
  let ini := inicializar_populacao tamanho numCidades true (some M) g
  (lacoGeracoes M tamanho pc pm msel mcruz mmut tt taxa numGeracoes ini.1 none ⊤ [] ini.2).1

theorem lacoGeracoes_custo_invariante (M : Matriz) (tamanho : Nat) (pc pm : ℚ)
    (msel mcruz mmut : String) (tt : Nat) (taxa : ℚ) :
    ∀ (gens : Nat) (pop : List (List Nat)) (mr : Option (List Nat)) (mc : QInf)
      (hist : List ℚ) (g : Rng) (r : List Nat) (c : QInf) (h2 : List ℚ),
    (∀ r0, mr = some r0 → mc = calcular_custo_rota r0 M) →
    (lacoGeracoes M tamanho pc pm msel mcruz mmut tt taxa gens pop mr mc hist g).1
      = (some r, c, h2) →
    c = calcular_custo_rota r M := by
  intro gens
  induction gens with
  | zero =>
    intro pop mr mc hist g r c h2 hinv heq
    simp only [lacoGeracoes] at heq
    obtain ⟨h1, h2eq, _⟩ : mr = some r ∧ mc = c ∧ hist = h2 := by
      simpa using heq
    rw [← h2eq]
    exact hinv r h1
  | succ gens ih =>
    intro pop mr mc hist g r c h2 hinv heq
    simp only [lacoGeracoes] at heq
    refine ih _ _ _ _ _ r c h2 ?_ heq
    intro r0 hr0
    by_cases hcond :
        qinfMenor
          (calcular_custo_rota
            (((avaliar_populacao pop M).headD (0, [])).2
              ++ [((avaliar_populacao pop M).headD (0, [])).2.headD 0]) M)
          mc = true
    · rw [if_pos hcond] at hr0
      obtain rfl : _ = r0 := Option.some.inj hr0
      rw [if_pos hcond]
    · rw [if_neg hcond] at hr0
      rw [if_neg hcond]
      exact hinv r0 hr0

/-- C10 (confirmed): with `num_geracoes = 0` the genetic driver returns
`(None, float('inf'), [])`, and whenever the returned best route is not
`None` the returned best cost equals `calcular_custo_rota` of that
closed-form route. -/
theorem c10_algoritmo_genetico_bordas :
    (∀ (M : Matriz) (tamanho : Nat) (pc pm : ℚ) (msel mcruz mmut : String)
      (tt : Nat) (taxa : ℚ) (g : Rng),
      algoritmo_genetico M tamanho 0 pc pm msel mcruz mmut tt taxa g = (none, ⊤, [])) ∧
    (∀ (M : Matriz) (tamanho numGeracoes : Nat) (pc pm : ℚ) (msel mcruz mmut : String)
      (tt : Nat) (taxa : ℚ) (g : Rng) (r : List Nat) (c : QInf) (hist : List ℚ),
      algoritmo_genetico M tamanho numGeracoes pc pm msel mcruz mmut tt taxa g
        = (some r, c, hist) →
      c = calcular_custo_rota r M) := by
  constructor
  · intro M tamanho pc pm msel mcruz mmut tt taxa g
    rfl
  · intro M tamanho numGeracoes pc pm msel mcruz mmut tt taxa g r c hist heq
    exact lacoGeracoes_custo_invariante M tamanho pc pm msel mcruz mmut tt taxa
      numGeracoes _ none ⊤ [] _ r c hist (by intro r0 h; cases h) heq

/-- Witness for C10: a concrete one-generation run returning `some [0, 0]`
with cost 0, fed through the theorem. -/
theorem c10_witness : (0 : QInf) = calcular_custo_rota [0, 0] [[0]] :=
  c10_algoritmo_genetico_bordas.2 [[0]] 1 1 0 0 "torneio" "ox" "inversao" 5 0
    ⟨fun _ => 1/2, fun _ => 0, 0, 0⟩ [0, 0] 0 [1] (by
      norm_num [algoritmo_genetico, lacoGeracoes, novaPopulacao, lacoNovaPopulacao,
        passoNovaPopulacao, numElite, pyInt, inicializar_populacao, aleatoriaLaco, pyShuffle,
        embaralhaFY, trocar, avaliar_populacao, ordenaDesc, insereDesc, calcular_fitness,
        calcular_custo_rota, somaCusto, pegar, qinfMenor, Rng.nextFloat, Rng.nextNat,
        pyRandint, untopD_zero, untopD_one, untopD_ofNat, List.range_succ])

theorem anexaFilho_append (nova : List (List Nat)) (filho p1x p2x : List Nat) (g : Rng) :
    ∃ x gx, anexaFilho nova filho p1x p2x g = (nova ++ [x], gx) := by
  unfold anexaFilho
  split_ifs
  · exact ⟨filho, g, rfl⟩
  · exact ⟨(mutacao_inversao filho 1 g).1, (mutacao_inversao filho 1 g).2, rfl⟩

theorem anexaDoisFilhos_append (nova : List (List Nat)) (f1v f2v p1v p2v : List Nat)
    (g : Rng) (tamanho : Nat) :
    ∃ xs gx,
      (let n1 := anexaFilho nova f1v p1v p2v g
       if n1.1.length < tamanho then anexaFilho n1.1 f2v p1v p2v n1.2 else n1)
        = (nova ++ xs, gx) := by
  obtain ⟨x1, g1, h1⟩ := anexaFilho_append nova f1v p1v p2v g
  dsimp only
  rw [h1]
  by_cases hlen : (nova ++ [x1]).length < tamanho
  · rw [if_pos hlen]
    obtain ⟨x2, g2, h2⟩ := anexaFilho_append (nova ++ [x1]) f2v p1v p2v g1
    rw [h2]
    exact ⟨[x1] ++ [x2], g2, by simp⟩
  · rw [if_neg hlen]
    exact ⟨[x1], g1, rfl⟩

theorem passoNovaPopulacao_append (pa : List (ℚ × List Nat)) (tamanho : Nat)
    (pc pm : ℚ) (msel mcruz mmut : String) (tt : Nat) (nova : List (List Nat)) (g : Rng) :
    ∃ xs gx, passoNovaPopulacao pa tamanho pc pm msel mcruz mmut tt nova g
      = (nova ++ xs, gx) := by
  unfold passoNovaPopulacao
  exact anexaDoisFilhos_append nova _ _ _ _ _ tamanho

theorem lacoNovaPopulacao_append (pa : List (ℚ × List Nat)) (tamanho : Nat)
    (pc pm : ℚ) (msel mcruz mmut : String) (tt : Nat) :
    ∀ (fuel : Nat) (nova : List (List Nat)) (g : Rng),
    ∃ xs, (lacoNovaPopulacao pa tamanho pc pm msel mcruz mmut tt fuel nova g).1
      = nova ++ xs := by
  intro fuel
  induction fuel with
  | zero => intro nova g; exact ⟨[], by simp [lacoNovaPopulacao]⟩
  | succ fuel ih =>
    intro nova g
    by_cases hlen : nova.length < tamanho
    · obtain ⟨xs1, gx, h1⟩ := passoNovaPopulacao_append pa tamanho pc pm msel mcruz mmut tt nova g
      obtain ⟨xs2, h2⟩ := ih (nova ++ xs1) gx
      refine ⟨xs1 ++ xs2, ?_⟩
      simp only [lacoNovaPopulacao, hlen, if_true, h1, h2]
      simp
    · exact ⟨[], by simp [lacoNovaPopulacao, hlen]⟩

/-- C5 (corrected/amended): in each generation of the genetic driver the new
population starts with exactly the top `max(1, floor(pop_size *
elitism_rate))` ranked individuals copied verbatim (Python's `int()`
truncates, it does not take the ceiling — see `c5_elitismo_nao_ceil`), with
a floor of at least one elite individual.  (`algoritmo_memetico` computes
the same `num_elite` but raises `TypeError` before any generation runs, see
C1.) -/
theorem c5_elitismo_floor_prefixo (pa : List (ℚ × List Nat)) (tamanho : Nat)
    (pc pm : ℚ) (msel mcruz mmut : String) (tt : Nat) (taxa : ℚ) (g : Rng)
    (hk : numElite tamanho taxa ≤ pa.length) (htaxa : 0 ≤ taxa) :
    ((novaPopulacao pa tamanho pc pm msel mcruz mmut tt taxa g).1).take
        (numElite tamanho taxa)
      = (pa.take (numElite tamanho taxa)).map (fun ind => ind.2) ∧
    1 ≤ numElite tamanho taxa ∧
    numElite tamanho taxa = max 1 (⌊(tamanho : ℚ) * taxa⌋).toNat := by
  refine ⟨?_, le_max_left 1 _, ?_⟩
  · unfold novaPopulacao
    obtain ⟨xs, h⟩ := lacoNovaPopulacao_append pa tamanho pc pm msel mcruz mmut tt
      tamanho ((pa.take (numElite tamanho taxa)).map (fun ind => ind.2)) g
    rw [h]
    apply List.take_left'
    simp [Nat.min_eq_left hk]
  · unfold numElite pyInt
    rw [if_pos (mul_nonneg (Nat.cast_nonneg tamanho) htaxa)]

/-- C5 counterexample: with population 10 and elitism rate 1/4 the code
keeps `max(1, int(2.5)) = 2` elites, not the claim's `ceil(2.5) = 3`. -/
theorem c5_elitismo_nao_ceil :
    numElite 10 (1/4) = 2 ∧ numElite 10 (1/4) ≠ (⌈(10 : ℚ) * (1/4)⌉).toNat := by
  have hfloor : numElite 10 (1/4) = 2 := by
    norm_num [numElite, pyInt]
    decide
  have hceil : (⌈(10 : ℚ) * (1/4)⌉ : ℤ) = 3 := by
    rw [Int.ceil_eq_iff]
    norm_num
  refine ⟨hfloor, ?_⟩
  rw [hfloor, hceil]
  decide

/-- Witness for C5: a concrete two-individual evaluated population with
population size 1 and rate 0. -/
theorem c5_witness :
    ((novaPopulacao [((1 : ℚ), [0]), (0, [1])] 1 0 0 "torneio" "ox" "inversao" 5 0
        ⟨fun _ => 1/2, fun _ => 0, 0, 0⟩).1).take (numElite 1 0)
      = ([((1 : ℚ), [0]), (0, [1])].take (numElite 1 0)).map (fun ind => ind.2) ∧
    1 ≤ numElite 1 0 ∧
    numElite 1 0 = max 1 (⌊((1 : ℕ) : ℚ) * 0⌋).toNat :=
  c5_elitismo_floor_prefixo [((1 : ℚ), [0]), (0, [1])] 1 0 0 "torneio" "ox" "inversao" 5 0
    ⟨fun _ => 1/2, fun _ => 0, 0, 0⟩ (by norm_num [numElite, pyInt]) le_rfl

/-- The parameter list of `inicializar_populacao` (genetico.py, line 21). -/
def inicializar_populacao_parametros : List String :=
  ["tamanho_populacao", "num_cidades", "usar_heuristica", "matriz_distancias"]

/-- The keyword arguments `algoritmo_memetico` passes to
`inicializar_populacao` (memetico.py, lines 227-230). -/
def memetico_chamada_init_kwargs : List String :=
  ["usar_heuristica", "matriz_distancias", "cidade_inicial_fixa"]

/-- The parameter list of `cruzamento_ox` (genetico.py, line 183); memetico.py
line 278 calls it with three positional arguments. -/
def cruzamento_ox_parametros : List String :=
  ["pai1", "pai2"]

/-- Python call binding for keywords: every keyword argument must name a
parameter of the callee, otherwise the call raises
`TypeError: ... got an unexpected keyword argument ...`. -/
def pyKwargsAceitos (parametros kwargs : List String) : Bool :=
  kwargs.all (fun k => parametros.contains k)

/-- Python call binding for positional arity: passing more positional
arguments than parameters raises `TypeError: ... takes n positional
arguments but m were given`. -/
def pyAridadeAceita (parametros : List String) (numPosicionais : Nat) : Bool :=
  numPosicionais ≤ parametros.length

/-- C1: the first statement of `algoritmo_memetico` calls
`inicializar_populacao` with the keyword `cidade_inicial_fixa`, which is not
among that function's parameters, so every call of the memetic driver raises
`TypeError` before the first generation (and its crossover calls pass three
positional arguments to the two-parameter `cruzamento_ox`): the claim that
both drivers always return a `(best route, best cost, history)` triple
without raising fails for `algoritmo_memetico`. -/
theorem c1_algoritmo_memetico_levanta_typeerror :
    pyKwargsAceitos inicializar_populacao_parametros memetico_chamada_init_kwargs = false ∧
    pyAridadeAceita cruzamento_ox_parametros 3 = false := by
  constructor
  · rfl
  · rfl

/-- A distance matrix with finite entries, as in claim C9's premise
("square matrix with finite entries"): rows of rationals. -/
abbrev MatrizQ := List (List ℚ)

/-- Python list indexing `l[i]` with an `Int` index: negative indices wrap
around; an out-of-range index raises `IndexError` in Python, which the
theorems below exclude by hypothesis (the default is never consulted
there). -/
def pyIdx {α : Type} (l : List α) (i : ℤ) (dflt : α) : α :=
  let j := if i < 0 then (l.length : ℤ) + i else i
  if 0 ≤ j ∧ j < l.length then l.getD j.toNat dflt else dflt

/-- `matriz_distancias[u][v]` with `Int` city labels (the `-1` sentinel of
`insercao_mais_barata` lives in the same type as real cities). -/
def pegarQ (M : MatrizQ) (u v : ℤ) : ℚ :=
  pyIdx (pyIdx M u []) v 0

/-- The initial greedy scan of `insercao_mais_barata` (solver.py, lines
78-85): nearest vertex to the start, strict improvement from the sentinel
`float('inf')`, first found on ties; `v0` stays `-1` if nothing updates. -/
def v0Argmin (M : MatrizQ) (s : ℤ) : List ℤ → ℤ → QInf → ℤ
  | [], v0, _ => v0
  | v :: resto, v0, menor =>
    if v ≠ s then
      let dist := pegarQ M s v
      if qinfMenor (dist : QInf) menor then v0Argmin M s resto v (dist : QInf)
      else v0Argmin M s resto v0 menor
    else v0Argmin M s resto v0 menor

/-- `dist_r = min over c in C of matriz_distancias[r][c]` (solver.py, lines
104-106), folded from the sentinel. -/
def distMinAoCiclo (M : MatrizQ) (r : ℤ) : List ℤ → QInf → QInf
  | [], acc => acc
  | c :: resto, acc =>
    let d := pegarQ M r c
    distMinAoCiclo M r resto (if qinfMenor (d : QInf) acc then (d : QInf) else acc)

/-- The `r*` scan of `insercao_mais_barata` (solver.py, lines 99-113):
remaining vertex closest to the cycle, strict improvement, first found on
ties. -/
def melhorRArgmin (M : MatrizQ) (C : List ℤ) : List ℤ → Option ℤ → QInf → Option ℤ
  | [], melhor, _ => melhor
  | r :: resto, melhor, menor =>
    let dr := distMinAoCiclo M r C ⊤
    if qinfMenor dr menor then melhorRArgmin M C resto (some r) dr
    else melhorRArgmin M C resto melhor menor

/-- The insertion cost `d(u, r*) + d(r*, v) - d(u, v)` at position `i`
(solver.py, lines 120-127). -/
def custoInsercao (M : MatrizQ) (rota : List ℤ) (rEst : ℤ) (i : Nat) : ℚ :=
  let u := pyIdx rota ((i : ℤ) - 1) 0
  let v := pyIdx rota (i : ℤ) 0
  pegarQ M u rEst + pegarQ M rEst v - pegarQ M u v

/-- The insertion-position scan of `insercao_mais_barata` (solver.py, lines
116-131), over `range(1, len(rota) - 1)`: the closing edge back to the start
is never a candidate position. -/
def melhorPosArgmin (M : MatrizQ) (rota : List ℤ) (rEst : ℤ) :
    List Nat → Option Nat → QInf → Option Nat
  | [], melhorPos, _ => melhorPos
  | i :: resto, melhorPos, melhorCusto =>
    let custo := custoInsercao M rota rEst i
    if qinfMenor (custo : QInf) melhorCusto then
      melhorPosArgmin M rota rEst resto (some i) (custo : QInf)
    else melhorPosArgmin M rota rEst resto melhorPos melhorCusto

/-- The `while R:` loop of `insercao_mais_barata` (solver.py, lines 97-138).
Each pass inserts one vertex and removes it from `R`, so the fuel
`R.length` covers every pass the Python loop makes.  The `none` branches
mirror states in which Python would raise (`matriz[None]`, `insert(None,…)`);
they are unreachable under the theorems' hypotheses. -/
def imbLaco (M : MatrizQ) : Nat → List ℤ → List ℤ → List ℤ → List ℤ
  | 0, rota, _, _ => rota
  | fuel + 1, rota, C, R =>
    if R = [] then rota
    else
      match melhorRArgmin M C R none ⊤ with
      | none => rota
      | some rEst =>
        match melhorPosArgmin M rota rEst (List.range' 1 (rota.length - 2)) none ⊤ with
        | none => rota
        | some pos =>
          imbLaco M fuel (rota.insertIdx pos rEst) (C ++ [rEst]) (R.erase rEst)

/-- `insercao_mais_barata(matriz_distancias, vertice_inicial)` (solver.py,
lines 58-140). -/
def insercao_mais_barata (M : MatrizQ) (s : ℤ) : List ℤ :=
  let n := M.length
  let v0 := v0Argmin M s ((List.range n).map Int.ofNat) (-1) ⊤
  let rota := [s, v0, s]
  let C := [s, v0]
  let R := ((List.range n).map Int.ofNat).filter (fun v => v ∉ C)
  imbLaco M R.length rota C R

theorem qinfMenor_top_iff (a : QInf) : qinfMenor a ⊤ = true ↔ a ≠ ⊤ := by
  simp [qinfMenor]

theorem distMinAoCiclo_ne_top (M : MatrizQ) (r : ℤ) :
    ∀ (Cs : List ℤ) (acc : QInf), (Cs ≠ [] ∨ acc ≠ ⊤) →
    distMinAoCiclo M r Cs acc ≠ ⊤ := by
  intro Cs
  induction Cs with
  | nil =>
    intro acc h
    rcases h with h | h
    · exact absurd rfl h
    · exact h
  | cons c resto ih =>
    intro acc _
    simp only [distMinAoCiclo]
    apply ih
    right
    by_cases hq : qinfMenor ((pegarQ M r c : ℚ) : QInf) acc = true
    · rw [if_pos hq]
      exact WithTop.coe_ne_top
    · rw [if_neg hq]
      intro htop
      rw [htop] at hq
      exact hq ((qinfMenor_top_iff _).mpr WithTop.coe_ne_top)

theorem melhorRArgmin_mantem_some (M : MatrizQ) (C : List ℤ) :
    ∀ (Rs : List ℤ) (x : ℤ) (menor : QInf),
    (melhorRArgmin M C Rs (some x) menor).isSome := by
  intro Rs
  induction Rs with
  | nil => intro x menor; rfl
  | cons r resto ih =>
    intro x menor
    simp only [melhorRArgmin]
    by_cases hq : qinfMenor (distMinAoCiclo M r C ⊤) menor = true
    · rw [if_pos hq]; exact ih r _
    · rw [if_neg hq]; exact ih x menor

theorem melhorRArgmin_acha (M : MatrizQ) (C : List ℤ) (hC : C ≠ []) :
    ∀ (Rs : List ℤ), Rs ≠ [] → (melhorRArgmin M C Rs none ⊤).isSome := by
  intro Rs hRs
  cases Rs with
  | nil => exact absurd rfl hRs
  | cons r resto =>
    simp only [melhorRArgmin]
    have hdr : distMinAoCiclo M r C ⊤ ≠ ⊤ := distMinAoCiclo_ne_top M r C ⊤ (Or.inl hC)
    rw [if_pos ((qinfMenor_top_iff _).mpr hdr)]
    exact melhorRArgmin_mantem_some M C resto r _

theorem melhorRArgmin_mem (M : MatrizQ) (C : List ℤ) :
    ∀ (Rs : List ℤ) (melhor : Option ℤ) (menor : QInf) (x : ℤ),
    melhorRArgmin M C Rs melhor menor = some x → melhor = some x ∨ x ∈ Rs := by
  intro Rs
  induction Rs with
  | nil => intro melhor menor x h; exact Or.inl h
  | cons r resto ih =>
    intro melhor menor x h
    simp only [melhorRArgmin] at h
    by_cases hq : qinfMenor (distMinAoCiclo M r C ⊤) menor = true
    · rw [if_pos hq] at h
      rcases ih _ _ _ h with h2 | h2
      · right
        obtain rfl : r = x := Option.some.inj h2
        exact List.mem_cons_self r resto
      · exact Or.inr (List.mem_cons_of_mem r h2)
    · rw [if_neg hq] at h
      rcases ih _ _ _ h with h2 | h2
      · exact Or.inl h2
      · exact Or.inr (List.mem_cons_of_mem r h2)

theorem melhorPosArgmin_mantem_some (M : MatrizQ) (rota : List ℤ) (rEst : ℤ) :
    ∀ (posicoes : List Nat) (x : Nat) (menor : QInf),
    (melhorPosArgmin M rota rEst posicoes (some x) menor).isSome := by
  intro posicoes
  induction posicoes with
  | nil => intro x menor; rfl
  | cons i resto ih =>
    intro x menor
    simp only [melhorPosArgmin]
    by_cases hq : qinfMenor ((custoInsercao M rota rEst i : ℚ) : QInf) menor = true
    · rw [if_pos hq]; exact ih i _
    · rw [if_neg hq]; exact ih x menor

theorem melhorPosArgmin_acha (M : MatrizQ) (rota : List ℤ) (rEst : ℤ) :
    ∀ (posicoes : List Nat), posicoes ≠ [] →
    (melhorPosArgmin M rota rEst posicoes none ⊤).isSome := by
  intro posicoes hne
  cases posicoes with
  | nil => exact absurd rfl hne
  | cons i resto =>
    simp only [melhorPosArgmin]
    rw [if_pos ((qinfMenor_top_iff _).mpr WithTop.coe_ne_top)]
    exact melhorPosArgmin_mantem_some M rota rEst resto i _

theorem melhorPosArgmin_mem (M : MatrizQ) (rota : List ℤ) (rEst : ℤ) :
    ∀ (posicoes : List Nat) (melhor : Option Nat) (menor : QInf) (x : Nat),
    melhorPosArgmin M rota rEst posicoes melhor menor = some x →
    melhor = some x ∨ x ∈ posicoes := by
  intro posicoes
  induction posicoes with
  | nil => intro melhor menor x h; exact Or.inl h
  | cons i resto ih =>
    intro melhor menor x h
    simp only [melhorPosArgmin] at h
    by_cases hq : qinfMenor ((custoInsercao M rota rEst i : ℚ) : QInf) menor = true
    · rw [if_pos hq] at h
      rcases ih _ _ _ h with h2 | h2
      · right
        obtain rfl : i = x := Option.some.inj h2
        exact List.mem_cons_self i resto
      · exact Or.inr (List.mem_cons_of_mem i h2)
    · rw [if_neg hq] at h
      rcases ih _ _ _ h with h2 | h2
      · exact Or.inl h2
      · exact Or.inr (List.mem_cons_of_mem i h2)

theorem insertIdx_headq (x : ℤ) :
    ∀ (l : List ℤ) (pos : Nat), 1 ≤ pos → (l.insertIdx pos x).head? = l.head? := by
  intro l pos hpos
  cases pos with
  | zero => omega
  | succ k =>
    cases l with
    | nil => rfl
    | cons a t => rfl

theorem insertIdx_getLastq (x : ℤ) :
    ∀ (l : List ℤ) (pos : Nat), pos < l.length →
    (l.insertIdx pos x).getLast? = l.getLast? := by
  intro l
  induction l with
  | nil => intro pos h; simp at h
  | cons a t ih =>
    intro pos hpos
    cases pos with
    | zero =>
      rw [List.insertIdx_zero]
      exact List.getLast?_cons_cons
    | succ k =>
      rw [List.insertIdx_succ_cons]
      have hk : k < t.length := by simpa using hpos
      have ht : t ≠ [] := by
        intro h
        rw [h] at hk
        simp at hk
      have hlen : (t.insertIdx k x).length = t.length + 1 :=
        List.length_insertIdx k t (Nat.le_of_lt hk)
      cases hins : t.insertIdx k x with
      | nil =>
        rw [hins] at hlen
        simp at hlen
      | cons b l2 =>
        rw [List.getLast?_cons_cons]
        rw [← hins, ih k hk]
        cases t with
        | nil => exact absurd rfl ht
        | cons c t2 => exact List.getLast?_cons_cons.symm

theorem length_filter_sem_par (a b : ℤ) :
    ∀ (l : List ℤ), l.Nodup → a ∈ l → b ∈ l → a ≠ b →
    (l.filter (fun v => v ∉ ([a, b] : List ℤ))).length = l.length - 2 := by
  intro l hnd ha hb hab
  have hfe : l.filter (fun v => v ∉ ([a, b] : List ℤ)) = (l.erase a).erase b := by
    rw [(hnd.erase a).erase_eq_filter, hnd.erase_eq_filter, List.filter_filter]
    apply List.filter_congr
    intro v _
    simp only [List.mem_cons, List.mem_singleton, decide_not]
    cases hva : decide (v = a) with
    | true =>
      simp only [decide_eq_true_eq] at hva
      simp [hva]
    | false =>
      simp only [decide_eq_false_iff_not] at hva
      cases hvb : decide (v = b) with
      | true =>
        simp only [decide_eq_true_eq] at hvb
        simp [hva, hvb]
      | false =>
        simp only [decide_eq_false_iff_not] at hvb
        simp [hva, hvb]
  rw [hfe]
  have hbe : b ∈ l.erase a := (List.mem_erase_of_ne hab.symm).mpr hb
  rw [List.length_erase_of_mem hbe, List.length_erase_of_mem ha]
  omega

theorem v0Argmin_mem (M : MatrizQ) (s : ℤ) :
    ∀ (rest : List ℤ) (v0c : ℤ) (m : QInf),
    v0Argmin M s rest v0c m = v0c ∨
      (v0Argmin M s rest v0c m ∈ rest ∧ v0Argmin M s rest v0c m ≠ s) := by
  intro rest
  induction rest with
  | nil => intro v0c m; exact Or.inl rfl
  | cons v resto ih =>
    intro v0c m
    simp only [v0Argmin]
    by_cases hvs : v ≠ s
    · rw [if_pos hvs]
      by_cases hq : qinfMenor ((pegarQ M s v : ℚ) : QInf) m = true
      · rw [if_pos hq]
        rcases ih v ((pegarQ M s v : ℚ) : QInf) with h | h
        · right
          rw [h]
          exact ⟨List.mem_cons_self v resto, hvs⟩
        · exact Or.inr ⟨List.mem_cons_of_mem v h.1, h.2⟩
      · rw [if_neg hq]
        rcases ih v0c m with h | h
        · exact Or.inl h
        · exact Or.inr ⟨List.mem_cons_of_mem v h.1, h.2⟩
    · rw [if_neg hvs]
      rcases ih v0c m with h | h
      · exact Or.inl h
      · exact Or.inr ⟨List.mem_cons_of_mem v h.1, h.2⟩

theorem v0Argmin_bom (M : MatrizQ) (s : ℤ) :
    ∀ (rest : List ℤ) (v0c : ℤ), (∃ v ∈ rest, v ≠ s) →
    v0Argmin M s rest v0c ⊤ ∈ rest ∧ v0Argmin M s rest v0c ⊤ ≠ s := by
  intro rest
  induction rest with
  | nil =>
    intro v0c h
    obtain ⟨v, hv, _⟩ := h
    cases hv
  | cons v resto ih =>
    intro v0c hex
    simp only [v0Argmin]
    by_cases hvs : v ≠ s
    · rw [if_pos hvs, if_pos ((qinfMenor_top_iff _).mpr WithTop.coe_ne_top)]
      rcases v0Argmin_mem M s resto v ((pegarQ M s v : ℚ) : QInf) with h | h
      · rw [h]
        exact ⟨List.mem_cons_self v resto, hvs⟩
      · exact ⟨List.mem_cons_of_mem v h.1, h.2⟩
    · rw [if_neg hvs]
      push_neg at hvs
      have hex2 : ∃ w ∈ resto, w ≠ s := by
        obtain ⟨w, hw, hws⟩ := hex
        rcases List.mem_cons.mp hw with rfl | hw2
        · exact absurd hvs hws
        · exact ⟨w, hw2, hws⟩
      obtain ⟨h1, h2⟩ := ih v0c hex2
      exact ⟨List.mem_cons_of_mem v h1, h2⟩

theorem imbLaco_spec (M : MatrizQ) (s : ℤ) :
    ∀ (fuel : Nat) (rota C R : List ℤ),
    C ≠ [] → fuel = R.length → 3 ≤ rota.length →
    rota.head? = some s → rota.getLast? = some s →
    (imbLaco M fuel rota C R).length = rota.length + R.length ∧
    (imbLaco M fuel rota C R).head? = some s ∧
    (imbLaco M fuel rota C R).getLast? = some s := by
  intro fuel
  induction fuel with
  | zero =>
    intro rota C R hC hfuel hlen hh hl
    have hR : R = [] := List.length_eq_zero.mp hfuel.symm
    subst hR
    exact ⟨by simp [imbLaco], by simp [imbLaco, hh], by simp [imbLaco, hl]⟩
  | succ fuel ih =>
    intro rota C R hC hfuel hlen hh hl
    have hR : R ≠ [] := by
      intro h
      rw [h] at hfuel
      simp at hfuel
    simp only [imbLaco]
    rw [if_neg hR]
    obtain ⟨rEst, hrEq⟩ := Option.isSome_iff_exists.mp (melhorRArgmin_acha M C hC R hR)
    rw [hrEq]
    dsimp only
    have hposne : List.range' 1 (rota.length - 2) ≠ [] := by
      intro h
      rw [List.range'_eq_nil] at h
      omega
    obtain ⟨pos, hpEq⟩ :=
      Option.isSome_iff_exists.mp (melhorPosArgmin_acha M rota rEst _ hposne)
    rw [hpEq]
    dsimp only
    have hpmem : pos ∈ List.range' 1 (rota.length - 2) := by
      rcases melhorPosArgmin_mem M rota rEst _ none ⊤ pos hpEq with h | h
      · cases h
      · exact h
    have hpb : 1 ≤ pos ∧ pos < 1 + (rota.length - 2) := List.mem_range'_1.mp hpmem
    have hrmem : rEst ∈ R := by
      rcases melhorRArgmin_mem M C R none ⊤ rEst hrEq with h | h
      · cases h
      · exact h
    have hlen2 : (rota.insertIdx pos rEst).length = rota.length + 1 :=
      List.length_insertIdx pos rota (by omega)
    have ihx := ih (rota.insertIdx pos rEst) (C ++ [rEst]) (R.erase rEst)
      (by simp)
      (by rw [List.length_erase_of_mem hrmem]; omega)
      (by omega)
      (by rw [insertIdx_headq rEst rota pos hpb.1]; exact hh)
      (by rw [insertIdx_getLastq rEst rota pos (by omega)]; exact hl)
    refine ⟨?_, ihx.2.1, ihx.2.2⟩
    rw [ihx.1, hlen2, List.length_erase_of_mem hrmem]
    omega

/-- C9 (corrected/amended): in `insercao_mais_barata` each selected node is
inserted at the position minimizing `d(prev,r*) + d(r*,next) - d(prev,next)`
over the positions `1 .. len(rota)-2` of the current cycle — the position at
the closing edge back to the start is never considered (see
`c9_insercao_ignora_aresta_final`) — ties broken by the first-found
position; the loop repeats until all nodes are inserted, and for every
square matrix of finite entries with `n ≥ 2` and start vertex `0 ≤ s < n`
the result is a closed route of length `n + 1` that starts and ends at
`s`. -/
theorem c9_insercao_rota_fechada (M : MatrizQ) (s : ℤ) (hn2 : 2 ≤ M.length)
    (hs0 : 0 ≤ s) (hsn : s < (M.length : ℤ)) :
    (insercao_mais_barata M s).length = M.length + 1 ∧
    (insercao_mais_barata M s).head? = some s ∧
    (insercao_mais_barata M s).getLast? = some s := by
  have hLlen : ((List.range M.length).map Int.ofNat).length = M.length := by simp
  have hsL : s ∈ (List.range M.length).map Int.ofNat := by
    refine List.mem_map.mpr ⟨s.toNat, List.mem_range.mpr ?_, Int.toNat_of_nonneg hs0⟩
    omega
  have hex : ∃ v ∈ (List.range M.length).map Int.ofNat, v ≠ s := by
    by_cases hz : s = 0
    · refine ⟨1, List.mem_map.mpr ⟨1, List.mem_range.mpr (by omega), rfl⟩, by
        rw [hz]; decide⟩
    · exact ⟨0, List.mem_map.mpr ⟨0, List.mem_range.mpr (by omega), rfl⟩,
        fun h => hz h.symm⟩
  obtain ⟨hv0L, hv0s⟩ :=
    v0Argmin_bom M s ((List.range M.length).map Int.ofNat) (-1) hex
  have hnd : ((List.range M.length).map Int.ofNat).Nodup :=
    (List.nodup_range M.length).map (fun a b h => Int.ofNat.inj h)
  have hRlen :
      (((List.range M.length).map Int.ofNat).filter
        (fun v => v ∉ ([s, v0Argmin M s ((List.range M.length).map Int.ofNat) (-1) ⊤]
          : List ℤ))).length
        = M.length - 2 := by
    rw [length_filter_sem_par s _ _ hnd hsL hv0L (Ne.symm hv0s), hLlen]
  have hspec := imbLaco_spec M s
    ((((List.range M.length).map Int.ofNat).filter
      (fun v => v ∉ ([s, v0Argmin M s ((List.range M.length).map Int.ofNat) (-1) ⊤]
        : List ℤ))).length)
    [s, v0Argmin M s ((List.range M.length).map Int.ofNat) (-1) ⊤, s]
    [s, v0Argmin M s ((List.range M.length).map Int.ofNat) (-1) ⊤]
    (((List.range M.length).map Int.ofNat).filter
      (fun v => v ∉ ([s, v0Argmin M s ((List.range M.length).map Int.ofNat) (-1) ⊤]
        : List ℤ)))
    (by simp) rfl (by simp) rfl rfl
  refine ⟨?_, ?_, ?_⟩
  · show (insercao_mais_barata M s).length = M.length + 1
    unfold insercao_mais_barata
    rw [hspec.1, hRlen]
    simp only [List.length_cons, List.length_nil]
    omega
  · show (insercao_mais_barata M s).head? = some s
    unfold insercao_mais_barata
    exact hspec.2.1
  · show (insercao_mais_barata M s).getLast? = some s
    unfold insercao_mais_barata
    exact hspec.2.2

/-- C9 counterexample: on the asymmetric matrix
`[[0,1,5],[1,0,1],[5,100,0]]` with start 0, node 2 is inserted between 0 and
1 (cost `5 + 100 - 1 = 104`), although inserting it on the closing edge
between 1 and the start (cost `1 + 5 - 1 = 5`) is strictly cheaper: the
chosen position does not minimize the insertion cost over all positions of
the cycle, because `range(1, len(rota) - 1)` skips the closing edge. -/
theorem c9_insercao_ignora_aresta_final :
    insercao_mais_barata [[0, 1, 5], [1, 0, 1], [5, 100, 0]] 0 = [0, 2, 1, 0] ∧
    custoInsercao [[0, 1, 5], [1, 0, 1], [5, 100, 0]] [0, 1, 0] 2 2
      < custoInsercao [[0, 1, 5], [1, 0, 1], [5, 100, 0]] [0, 1, 0] 2 1 := by
  constructor
  · norm_num [insercao_mais_barata, imbLaco, v0Argmin, distMinAoCiclo, melhorRArgmin,
      melhorPosArgmin, custoInsercao, pegarQ, pyIdx, qinfMenor, List.range_succ,
      untopD_zero, untopD_one, untopD_ofNat, intToNat_ofNat, Int.toNat_one, Int.toNat_zero,
      List.range']
  · norm_num [custoInsercao, pegarQ, pyIdx, intToNat_ofNat, Int.toNat_one, Int.toNat_zero]

/-- Witness for C9 at a concrete 2×2 matrix. -/
theorem c9_witness :
    (insercao_mais_barata [[0, 1], [1, 0]] 0).length = [[(0 : ℚ), 1], [1, 0]].length + 1 ∧
    (insercao_mais_barata [[0, 1], [1, 0]] 0).head? = some 0 ∧
    (insercao_mais_barata [[0, 1], [1, 0]] 0).getLast? = some 0 :=
  c9_insercao_rota_fechada [[0, 1], [1, 0]] 0 (by norm_num) le_rfl (by norm_num)

/-- The 2-opt move `melhor_rota[:i] + melhor_rota[i:j+1][::-1] +
melhor_rota[j+1:]` (solver.py, line 169). -/
def twoOptTroca (rota : List Nat) (i j : Nat) : List Nat :=
  rota.take i ++ ((rota.drop i).take (j + 1 - i)).reverse ++ rota.drop (j + 1)

/-- The `(i, j)` pairs visited by the nested `for` loops of
`busca_local_2opt` (solver.py, lines 164-165): `i` in `range(1, len-2)`,
`j` in `range(i+1, len-1)`.  The 2-opt move preserves the length, so the
ranges Python recomputes from `melhor_rota` equal these. -/
def paresDoisOpt (n : Nat) : List (Nat × Nat) :=
  (List.range' 1 (n - 3)).bind (fun i => (List.range' (i + 1) (n - 2 - i)).map (fun j => (i, j)))

/-- One full pass of the nested loops of `busca_local_2opt` (solver.py,
lines 164-176): state is the current best route, its cost and the
`melhoria` flag. -/
def passoDoisOpt (M : Matriz) : List (Nat × Nat) → List Nat → QInf → Bool →
    List Nat × QInf × Bool
  | [], r, c, imp => (r, c, imp)
  | (i, j) :: resto, r, c, imp =>
    let nova := twoOptTroca r i j
    let nc := calcular_custo_rota nova M
    if qinfMenor nc c then passoDoisOpt M resto nova nc true
    else passoDoisOpt M resto r c imp

theorem twoOptTroca_perm (r : List Nat) (i j : Nat) (h : i ≤ j + 1) :
    (twoOptTroca r i j).Perm r := by
  unfold twoOptTroca
  conv_rhs => rw [← List.take_append_drop i r]
  rw [List.append_assoc]
  apply List.Perm.append_left
  have hd : r.drop (j + 1) = (r.drop i).drop (j + 1 - i) := by
    rw [List.drop_drop]
    congr 1
    omega
  rw [hd]
  conv_rhs => rw [← List.take_append_drop (j + 1 - i) (r.drop i)]
  exact List.Perm.append_right _ (List.reverse_perm _)

theorem paresDoisOpt_limite (n : Nat) :
    ∀ p ∈ paresDoisOpt n, p.1 ≤ p.2 + 1 := by
  intro p hp
  unfold paresDoisOpt at hp
  obtain ⟨i, hi, hp2⟩ := List.mem_bind.mp hp
  obtain ⟨j, hj, rfl⟩ := List.mem_map.mp hp2
  have := List.mem_range'_1.mp hj
  omega

theorem passoDoisOpt_le (M : Matriz) :
    ∀ (pares : List (Nat × Nat)) (r : List Nat) (c : QInf) (imp : Bool),
    (passoDoisOpt M pares r c imp).2.1 ≤ c := by
  intro pares
  induction pares with
  | nil => intro r c imp; exact le_refl c
  | cons par resto ih =>
    intro r c imp
    rcases par with ⟨i, j⟩
    simp only [passoDoisOpt]
    by_cases hq : qinfMenor (calcular_custo_rota (twoOptTroca r i j) M) c = true
    · rw [if_pos hq]
      exact le_trans (ih _ _ _) (le_of_lt ((qinfMenor_iff_lt _ _).mp hq))
    · rw [if_neg hq]
      exact ih _ _ _

theorem passoDoisOpt_perm (M : Matriz) :
    ∀ (pares : List (Nat × Nat)) (r : List Nat) (c : QInf) (imp : Bool),
    (∀ p ∈ pares, p.1 ≤ p.2 + 1) → (passoDoisOpt M pares r c imp).1.Perm r := by
  intro pares
  induction pares with
  | nil => intro r c imp _; exact List.Perm.refl r
  | cons par resto ih =>
    intro r c imp hp
    rcases par with ⟨i, j⟩
    have hij : i ≤ j + 1 := hp (i, j) (List.mem_cons_self _ _)
    have hresto : ∀ p ∈ resto, p.1 ≤ p.2 + 1 :=
      fun p h => hp p (List.mem_cons_of_mem _ h)
    simp only [passoDoisOpt]
    by_cases hq : qinfMenor (calcular_custo_rota (twoOptTroca r i j) M) c = true
    · rw [if_pos hq]
      exact (ih _ _ _ hresto).trans (twoOptTroca_perm r i j hij)
    · rw [if_neg hq]
      exact ih _ _ _ hresto

theorem passoDoisOpt_custo (M : Matriz) :
    ∀ (pares : List (Nat × Nat)) (r : List Nat) (c : QInf) (imp : Bool),
    c = calcular_custo_rota r M →
    (passoDoisOpt M pares r c imp).2.1
      = calcular_custo_rota (passoDoisOpt M pares r c imp).1 M := by
  intro pares
  induction pares with
  | nil => intro r c imp h; exact h
  | cons par resto ih =>
    intro r c imp h
    rcases par with ⟨i, j⟩
    simp only [passoDoisOpt]
    by_cases hq : qinfMenor (calcular_custo_rota (twoOptTroca r i j) M) c = true
    · rw [if_pos hq]
      exact ih _ _ _ rfl
    · rw [if_neg hq]
      exact ih _ _ _ h

theorem passoDoisOpt_estrito (M : Matriz) :
    ∀ (pares : List (Nat × Nat)) (r : List Nat) (c : QInf),
    (passoDoisOpt M pares r c false).2.2 = true →
    (passoDoisOpt M pares r c false).2.1 < c := by
  intro pares
  induction pares with
  | nil =>
    intro r c h
    simp [passoDoisOpt] at h
  | cons par resto ih =>
    intro r c h
    rcases par with ⟨i, j⟩
    simp only [passoDoisOpt] at h ⊢
    by_cases hq : qinfMenor (calcular_custo_rota (twoOptTroca r i j) M) c = true
    · rw [if_pos hq] at h ⊢
      exact lt_of_le_of_lt (passoDoisOpt_le M resto _ _ _) ((qinfMenor_iff_lt _ _).mp hq)
    · rw [if_neg hq] at h ⊢
      exact ih _ _ h

/-- The finitely many cost values a 2-opt rearrangement of `base` can take:
the termination measure of the `while melhoria` loop. -/
def custosPossiveis (M : Matriz) (base : List Nat) : Finset QInf :=
  (base.permutations.map (fun r => calcular_custo_rota r M)).toFinset

theorem custosPossiveis_mem (M : Matriz) (base r : List Nat) (h : r.Perm base) :
    calcular_custo_rota r M ∈ custosPossiveis M base := by
  unfold custosPossiveis
  rw [List.mem_toFinset]
  exact List.mem_map.mpr ⟨r, List.mem_permutations.mpr h, rfl⟩

theorem custosPossiveis_medida (M : Matriz) (base : List Nat) (c c2 : QInf)
    (hmem : c2 ∈ custosPossiveis M base) (hlt : c2 < c) :
    ((custosPossiveis M base).filter (fun q => q < c2)).card
      < ((custosPossiveis M base).filter (fun q => q < c)).card := by
  apply Finset.card_lt_card
  rw [Finset.ssubset_iff_of_subset]
  · exact ⟨c2, Finset.mem_filter.mpr ⟨hmem, hlt⟩, by simp⟩
  · intro q hq
    obtain ⟨hq1, hq2⟩ := Finset.mem_filter.mp hq
    exact Finset.mem_filter.mpr ⟨hq1, lt_trans hq2 hlt⟩

/-- The `while melhoria` loop of `busca_local_2opt` (solver.py, lines
159-176).  Each improving pass strictly lowers the best cost inside the
finite set `custosPossiveis`, which is the termination argument for
Python's loop as well; the result carries the proof that its cost never
exceeds the entry cost. -/
def buscaDoisOptLaco (M : Matriz) (base r : List Nat) (c : QInf)
    (hperm : r.Perm base) (hcost : c = calcular_custo_rota r M) :
    {out : List Nat // calcular_custo_rota out M ≤ c} :=
  let p := passoDoisOpt M (paresDoisOpt r.length) r c false
  have hperm2 : p.1.Perm base :=
    (passoDoisOpt_perm M _ r c false (paresDoisOpt_limite r.length)).trans hperm
  have hcost2 : p.2.1 = calcular_custo_rota p.1 M :=
    passoDoisOpt_custo M _ r c false hcost
  if himp : p.2.2 = true then
    have hstrict : p.2.1 < c := passoDoisOpt_estrito M _ r c himp
    let res := buscaDoisOptLaco M base p.1 p.2.1 hperm2 hcost2
    ⟨res.1, le_trans res.2 (le_of_lt hstrict)⟩
  else
    ⟨p.1, by rw [← hcost2]; exact passoDoisOpt_le M _ r c false⟩
termination_by ((custosPossiveis M base).filter (fun q => q < c)).card
decreasing_by
  exact custosPossiveis_medida M base c p.2.1
    (hcost2 ▸ custosPossiveis_mem M base p.1 hperm2) hstrict

/-- `busca_local_2opt(rota, matriz_distancias)` (solver.py, lines 142-179).
`copy.deepcopy` of a list of ints is the list itself in a pure embedding. -/
def busca_local_2opt (rota : List Nat) (M : Matriz) : List Nat :=
  (buscaDoisOptLaco M rota rota (calcular_custo_rota rota M) (List.Perm.refl rota) rfl).1

/-- C4 (confirmed, without needing the claim's hypotheses): the full 2-opt
local search terminates (the definition is total by the strictly-decreasing
cost measure) and the returned route's cost never exceeds the input
route's cost — for every starting route and every matrix, in particular
for closed-form feasible routes over finite non-negative matrices. -/
theorem c4_busca_local_2opt_nao_piora (rota : List Nat) (M : Matriz) :
    calcular_custo_rota (busca_local_2opt rota M) M ≤ calcular_custo_rota rota M :=
  (buscaDoisOptLaco M rota rota (calcular_custo_rota rota M) (List.Perm.refl rota) rfl).2
